import Mathlib

/-!
Shallow embedding of `src/main.cpp` of the esp32-meter-monitor
repository: a supervisory loop that, every `captureInterval`
milliseconds, captures a camera frame and publishes it over MQTT.

Modelling decisions:
* `millis()` values and `lastCapture` are `unsigned long` (32 bits on the
  ESP32); they are embedded as `Nat` with arithmetic taken `% 2^32`
  exactly where the C code overflows (the subtraction
  `currentMillis - lastCapture`).
* The side-effecting collaborators (camera, MQTT client, LED, delay) are
  modelled by an explicit trace of `Event`s emitted by each function, and
  their outcomes (frame acquired or not, connect attempt outcomes,
  publish result) are inputs to the embedded functions.
* `reconnectMQTT` is a `while` loop that may not terminate (if every
  connect attempt fails); it is embedded as structural recursion over the
  finite list of attempt outcomes supplied, returning `none` when the
  list is exhausted before a success (a non-terminating execution).
-/

/-- Modulus `2^32` of `unsigned long` arithmetic on the ESP32. -/
def UINT32_MOD : Nat := 4294967296

/-- Source constant `captureInterval = 300000` ms (5 minutes). -/
def captureInterval : Nat := 300000

/-- Source constant `mqtt_topic`. -/
def mqtt_topic : String := "home/meter/electric/image"

/-- C `unsigned long` subtraction `a - b`: the value of
`(a - b) mod 2^32` for 32-bit unsigned operands, embedded over `Nat`. -/
def sub32 (a b : Nat) : Nat := (a + UINT32_MOD - b % UINT32_MOD) % UINT32_MOD

/-- The interval check and `lastCapture` update of `loop()`
(lines 155-158): given the stored `lastCapture` and `currentMillis`,
returns whether `captureAndSend` is invoked and the new `lastCapture`.
The assignment `lastCapture = currentMillis` happens in the fired branch. -/
def tick (last now : Nat) : Bool × Nat :=
  if captureInterval ≤ sub32 now last then (true, now) else (false, last)

/-- Observable events emitted by the embedded functions, in program
order: LED writes, camera frame acquisition/return, MQTT connect
attempts, publishes, `mqtt.loop()`, `delay()`, the interval check, and
the assignment to `lastCapture`. -/
inductive Event where
  | ledSet (lit : Bool)
  | fbGet (ok : Bool)
  | connectAttempt (clientId : String) (ok : Bool)
  | delayMs (ms : Nat)
  | publish (topic : String) (ok : Bool)
  | fbReturn
  | mqttLoop
  | intervalCheck (fired : Bool)
  | setLast (v : Nat)
  deriving DecidableEq, Repr

/-- Hexadecimal digits of `n`, most significant first, with structural
fuel (any fuel `≥ n` computes the digits of `n`; empty for 0). -/
def hexCharsAux : Nat → Nat → List Char
  | _, 0 => []
  | 0, _ + 1 => []
  | f + 1, n + 1 =>
    hexCharsAux f ((n + 1) / 16) ++ [Nat.digitChar ((n + 1) % 16)]

/-- Hexadecimal digits of `n`, most significant first (empty for 0). -/
def hexChars (n : Nat) : List Char := hexCharsAux n n

/-- Arduino `String(x, HEX)`: lowercase hexadecimal, `"0"` for zero. -/
def toHexStr (n : Nat) : String :=
  if n = 0 then "0" else String.mk (hexChars n)

/-- The client identity built on each attempt of `reconnectMQTT`:
`"ESP32CAM-Electric-" + String(random(0xffff), HEX)`, where the random
draw `random(0xffff)` of attempt `i` is modelled as `r % 65535` for the
`i`-th value `r` of the supplied entropy stream. -/
def clientIdOf (r : Nat) : String :=
  "ESP32CAM-Electric-" ++ toHexStr (r % 65535)

/-- The body of `reconnectMQTT`'s `while (!mqtt.connected())` loop,
entered disconnected.  Each list element `(r, ok)` supplies one
iteration's random draw and the outcome of `mqtt.connect`; on failure
the code executes `delay(5000)` and retries.  `none` models the
execution that never connects (the while loop does not terminate). -/
def reconnectLoop : List (Nat × Bool) → Option (List Event)
  | [] => none
  | (r, ok) :: rest =>
    if ok then
      some [Event.connectAttempt (clientIdOf r) true]
    else
      match reconnectLoop rest with
      | none => none
      | some es =>
        some (Event.connectAttempt (clientIdOf r) false ::
              Event.delayMs 5000 :: es)

/-- Function `reconnectMQTT()`: if `mqtt.connected()` already holds the while
loop body never runs; otherwise it iterates until a connect succeeds. -/
def reconnectMQTT (connected : Bool) (atts : List (Nat × Bool)) :
    Option (List Event) :=
  if connected then some [] else reconnectLoop atts

/-- Outcomes of the capability calls made by one `captureAndSend()`:
whether `esp_camera_fb_get` yields a frame, the value of
`mqtt.connected()` at the check, the connect-attempt outcomes available
to a reconnect, and the result of `mqtt.publish`. -/
structure CycleInput where
  acq : Bool
  conn : Bool
  atts : List (Nat × Bool)
  pub : Bool
  deriving Repr

/-- Function `captureAndSend()` (lines 117-146): LED on; get a frame (on failure
LED off and return); if not connected, `reconnectMQTT()`; publish the
frame; return the frame buffer; LED off.  `none` when the embedded
reconnect does not terminate. -/
def captureAndSend (inp : CycleInput) : Option (List Event) :=
  if inp.acq = false then
    some [Event.ledSet true, Event.fbGet false, Event.ledSet false]
  else
    match (if inp.conn then some [] else reconnectMQTT false inp.atts) with
    | none => none
    | some recEs =>
      some ([Event.ledSet true, Event.fbGet true] ++ recEs ++
            [Event.publish mqtt_topic inp.pub, Event.fbReturn,
             Event.ledSet false])

/-- Environment of one `loop()` iteration: `mqtt.connected()` at the top
of the loop, connect outcomes for a top-of-loop reconnect, the
`millis()` reading, and the capability outcomes of the cycle (used only
if the interval check fires). -/
structure LoopInput where
  connAtTop : Bool
  attsTop : List (Nat × Bool)
  now : Nat
  cycle : CycleInput
  deriving Repr

/-- One iteration of `loop()` (lines 148-162): reconnect if needed,
`mqtt.loop()`, interval check, possibly `lastCapture = currentMillis`
followed by `captureAndSend()`, then `delay(100)`.  Returns the new
`lastCapture` and the event trace; `none` when a reconnect diverges. -/
def loopIter (last : Nat) (inp : LoopInput) : Option (Nat × List Event) :=
  match (if inp.connAtTop then some [] else reconnectMQTT false inp.attsTop) with
  | none => none
  | some topRec =>
    if captureInterval ≤ sub32 inp.now last then
      match captureAndSend inp.cycle with
      | none => none
      | some cyc =>
        some (inp.now,
              topRec ++ Event.mqttLoop :: Event.intervalCheck true ::
              Event.setLast inp.now :: (cyc ++ [Event.delayMs 100]))
    else
      some (last,
            topRec ++ [Event.mqttLoop, Event.intervalCheck false,
                       Event.delayMs 100])

/-- Is this event a camera frame acquisition? -/
def isFbGet : Event → Bool
  | .fbGet _ => true
  | _ => false

/-- Is this event a camera frame release (`esp_camera_fb_return`)? -/
def isFbReturn : Event → Bool
  | .fbReturn => true
  | _ => false

/-- Is this event an MQTT publish? -/
def isPublish : Event → Bool
  | .publish _ _ => true
  | _ => false

/-- Is this event part of connection maintenance (a connect attempt or
the retry delay)? -/
def isConnEvent : Event → Bool
  | .connectAttempt _ _ => true
  | .delayMs _ => true
  | _ => false

/-- State of `mqtt.connected()` after one event: a connect attempt leaves the
client connected exactly when it succeeded; no other modelled operation
changes the connection state within a call. -/
def connStep (c : Bool) : Event → Bool
  | .connectAttempt _ ok => ok
  | _ => c

/-- State of `mqtt.connected()` after a trace, starting from state `c`. -/
def connFold (c : Bool) (tr : List Event) : Bool :=
  tr.foldl connStep c

/-- Every `publish` in the trace happens while the running connection
state is `true` (state threaded from `c` through `connStep`). -/
def publishOnlyConnectedB (c : Bool) : List Event → Bool
  | [] => true
  | e :: rest =>
    (match e with
     | .publish _ _ => c
     | _ => true) && publishOnlyConnectedB (connStep c e) rest

/-- Every failed connect attempt is immediately followed by a
`delay(5000)` event. -/
def failedFollowedByDelayB : List Event → Bool
  | [] => true
  | [e] =>
    (match e with
     | .connectAttempt _ false => false
     | _ => true)
  | e :: e2 :: rest =>
    (match e with
     | .connectAttempt _ false => decide (e2 = Event.delayMs 5000)
     | _ => true) && failedFollowedByDelayB (e2 :: rest)

/-- LED state after a trace, starting from state `c`. -/
def ledAfter (c : Bool) (tr : List Event) : Bool :=
  tr.foldl (fun s e => match e with | .ledSet b => b | _ => s) c

/-- The client identities of the connect attempts in a trace, in order. -/
def connectIds : List Event → List String
  | [] => []
  | .connectAttempt id _ :: rest => id :: connectIds rest
  | _ :: rest => connectIds rest

/-- Was a capture-publish cycle invoked in this trace?  `captureAndSend`
always calls `esp_camera_fb_get`, and nothing else does. -/
def cycleInvoked (tr : List Event) : Bool :=
  tr.any isFbGet

example : tick 0 0 = (false, 0) := by decide
example : tick 0 299999 = (false, 0) := by decide
example : tick 0 300000 = (true, 300000) := by decide
example : tick 0 4294967295 = (true, 4294967295) := by decide
example : tick 4294967295 299999 = (true, 299999) := by decide
example : sub32 5 4294967286 = 15 := by decide
example :
    captureAndSend ⟨true, true, [], true⟩ =
    some [Event.ledSet true, Event.fbGet true,
          Event.publish mqtt_topic true, Event.fbReturn,
          Event.ledSet false] := by decide
example :
    reconnectMQTT false [(3, false), (7, true)] =
    some [Event.connectAttempt (clientIdOf 3) false, Event.delayMs 5000,
          Event.connectAttempt (clientIdOf 7) true] := by decide
example : clientIdOf 255 = "ESP32CAM-Electric-ff" := by decide


theorem reconnectLoop_nil : reconnectLoop [] = none := rfl

theorem reconnectLoop_cons_true (r : Nat) (rest : List (Nat × Bool)) :
    reconnectLoop ((r, true) :: rest) =
    some [Event.connectAttempt (clientIdOf r) true] := rfl

theorem reconnectLoop_cons_false (r : Nat) (rest : List (Nat × Bool)) :
    reconnectLoop ((r, false) :: rest) =
    match reconnectLoop rest with
    | none => none
    | some es =>
      some (Event.connectAttempt (clientIdOf r) false ::
            Event.delayMs 5000 :: es) := rfl

theorem isConnEvent_spec (e : Event) (h : isConnEvent e = true) :
    isPublish e = false ∧ isFbGet e = false ∧ isFbReturn e = false := by
  cases e <;> simp_all [isConnEvent, isPublish, isFbGet, isFbReturn]

theorem reconnectLoop_conn_events (atts : List (Nat × Bool))
    (es : List Event) (h : reconnectLoop atts = some es) :
    ∀ e ∈ es, isConnEvent e = true := by
  induction atts generalizing es with
  | nil => exact absurd h (by simp [reconnectLoop_nil])
  | cons a rest ih =>
    obtain ⟨r, ok⟩ := a
    cases ok with
    | true =>
      rw [reconnectLoop_cons_true, Option.some_inj] at h
      subst h
      intro e he
      simp only [List.mem_singleton] at he
      subst he
      rfl
    | false =>
      rw [reconnectLoop_cons_false] at h
      cases hrec : reconnectLoop rest with
      | none => rw [hrec] at h; cases h
      | some es' =>
        rw [hrec, Option.some_inj] at h
        subst h
        intro e he
        rcases he with _ | ⟨_, _ | ⟨_, he⟩⟩
        · rfl
        · rfl
        · exact ih es' hrec e he

theorem reconnectLoop_connFold (atts : List (Nat × Bool))
    (es : List Event) (h : reconnectLoop atts = some es) (c : Bool) :
    connFold c es = true := by
  induction atts generalizing es c with
  | nil => exact absurd h (by simp [reconnectLoop_nil])
  | cons a rest ih =>
    obtain ⟨r, ok⟩ := a
    cases ok with
    | true =>
      rw [reconnectLoop_cons_true, Option.some_inj] at h
      subst h
      rfl
    | false =>
      rw [reconnectLoop_cons_false] at h
      cases hrec : reconnectLoop rest with
      | none => rw [hrec] at h; cases h
      | some es' =>
        rw [hrec, Option.some_inj] at h
        subst h
        simpa [connFold, connStep] using ih es' hrec false

theorem reconnectLoop_delay (atts : List (Nat × Bool))
    (es : List Event) (h : reconnectLoop atts = some es) :
    failedFollowedByDelayB es = true := by
  induction atts generalizing es with
  | nil => exact absurd h (by simp [reconnectLoop_nil])
  | cons a rest ih =>
    obtain ⟨r, ok⟩ := a
    cases ok with
    | true =>
      rw [reconnectLoop_cons_true, Option.some_inj] at h
      subst h
      rfl
    | false =>
      rw [reconnectLoop_cons_false] at h
      cases hrec : reconnectLoop rest with
      | none => rw [hrec] at h; cases h
      | some es' =>
        rw [hrec, Option.some_inj] at h
        subst h
        have h2 := ih es' hrec
        cases es' with
        | nil => rfl
        | cons e2 tl =>
          simp only [failedFollowedByDelayB] at h2 ⊢
          simpa using h2

theorem publishOnlyConnectedB_append (l1 l2 : List Event) (c : Bool) :
    publishOnlyConnectedB c (l1 ++ l2) =
    (publishOnlyConnectedB c l1 &&
     publishOnlyConnectedB (connFold c l1) l2) := by
  induction l1 generalizing c with
  | nil => simp [publishOnlyConnectedB, connFold]
  | cons e tl ih =>
    simp only [List.cons_append, publishOnlyConnectedB, List.append_eq]
    rw [ih]
    simp [connFold, Bool.and_assoc]

theorem publishOnlyConnectedB_of_no_publish (es : List Event) :
    (∀ e ∈ es, isPublish e = false) →
    ∀ c, publishOnlyConnectedB c es = true := by
  induction es with
  | nil => intro _ _; rfl
  | cons e tl ih =>
    intro h c
    have he := h e (List.mem_cons_self e tl)
    have htl : ∀ x ∈ tl, isPublish x = false :=
      fun x hx => h x (List.mem_cons_of_mem e hx)
    simp only [publishOnlyConnectedB, Bool.and_eq_true]
    refine ⟨?_, ih htl _⟩
    cases e <;> simp_all [isPublish]

theorem captureAndSend_eq (inp : CycleInput) (tr : List Event)
    (h : captureAndSend inp = some tr) :
    (inp.acq = false ∧
      tr = [Event.ledSet true, Event.fbGet false, Event.ledSet false]) ∨
    (inp.acq = true ∧ ∃ recEs, reconnectMQTT inp.conn inp.atts = some recEs ∧
      (∀ e ∈ recEs, isConnEvent e = true) ∧
      tr = [Event.ledSet true, Event.fbGet true] ++ recEs ++
           [Event.publish mqtt_topic inp.pub, Event.fbReturn,
            Event.ledSet false]) := by
  cases hacq : inp.acq with
  | false =>
    left
    refine ⟨rfl, ?_⟩
    unfold captureAndSend at h
    rw [if_pos hacq, Option.some_inj] at h
    exact h.symm
  | true =>
    right
    refine ⟨rfl, ?_⟩
    unfold captureAndSend at h
    rw [if_neg (by simp [hacq])] at h
    cases hconn : inp.conn with
    | true =>
      rw [if_pos hconn] at h
      refine ⟨[], by simp [reconnectMQTT], by simp, ?_⟩
      rw [show (match (some [] : Option (List Event)) with
            | none => none
            | some recEs =>
              some ([Event.ledSet true, Event.fbGet true] ++ recEs ++
                [Event.publish mqtt_topic inp.pub, Event.fbReturn,
                 Event.ledSet false])) =
          some ([Event.ledSet true, Event.fbGet true] ++ ([] : List Event) ++
                [Event.publish mqtt_topic inp.pub, Event.fbReturn,
                 Event.ledSet false]) from rfl, Option.some_inj] at h
      exact h.symm
    | false =>
      rw [if_neg (by simp [hconn]),
          show reconnectMQTT false inp.atts = reconnectLoop inp.atts
            from rfl] at h
      cases hrec : reconnectLoop inp.atts with
      | none => rw [hrec] at h; cases h
      | some recEs =>
        rw [hrec, Option.some_inj] at h
        exact ⟨recEs, by simp [reconnectMQTT, hconn, hrec],
          reconnectLoop_conn_events _ _ hrec, h.symm⟩

theorem captureAndSend_has_fbGet (inp : CycleInput) (tr : List Event)
    (h : captureAndSend inp = some tr) : tr.any isFbGet = true := by
  rcases captureAndSend_eq inp tr h with ⟨_, rfl⟩ | ⟨_, recEs, _, _, rfl⟩ <;>
    simp [isFbGet]

theorem loopIter_eq (last : Nat) (inp : LoopInput) (last' : Nat)
    (tr : List Event) (h : loopIter last inp = some (last', tr)) :
    ∃ topRec, (∀ e ∈ topRec, isConnEvent e = true) ∧
      (inp.connAtTop = true → topRec = []) ∧
      ((captureInterval ≤ sub32 inp.now last ∧ last' = inp.now ∧
        ∃ cyc, captureAndSend inp.cycle = some cyc ∧
          tr = topRec ++ Event.mqttLoop :: Event.intervalCheck true ::
               Event.setLast inp.now :: (cyc ++ [Event.delayMs 100])) ∨
       (¬ captureInterval ≤ sub32 inp.now last ∧ last' = last ∧
        tr = topRec ++ [Event.mqttLoop, Event.intervalCheck false,
                        Event.delayMs 100])) := by
  unfold loopIter at h
  split at h
  next => cases h
  next topRec heq =>
    have hconnEv : ∀ e ∈ topRec, isConnEvent e = true := by
      by_cases hc : inp.connAtTop = true
      · rw [if_pos hc, Option.some_inj] at heq
        subst heq
        simp
      · rw [if_neg hc] at heq
        exact reconnectLoop_conn_events _ _ heq
    have hempty : inp.connAtTop = true → topRec = [] := by
      intro hc
      rw [if_pos hc, Option.some_inj] at heq
      exact heq.symm
    refine ⟨topRec, hconnEv, hempty, ?_⟩
    split at h
    next hfire =>
      split at h
      next => cases h
      next cyc hcyc =>
        left
        rw [Option.some_inj, Prod.mk.injEq] at h
        exact ⟨hfire, h.1.symm, cyc, hcyc, h.2.symm⟩
    next hfire =>
      right
      rw [Option.some_inj, Prod.mk.injEq] at h
      exact ⟨hfire, h.1.symm, h.2.symm⟩

/-- Numeric value of one lowercase hexadecimal digit character. -/
def hexCharVal (c : Char) : Nat :=
  if 97 ≤ c.toNat then c.toNat - 87 else c.toNat - 48

/-- Numeric value of a most-significant-first hex digit list. -/
def hexVal (l : List Char) : Nat :=
  l.foldl (fun a c => 16 * a + hexCharVal c) 0

theorem hexCharVal_digitChar (d : Nat) (h : d < 16) :
    hexCharVal (Nat.digitChar d) = d := by
  interval_cases d <;> decide

theorem hexCharsAux_foldl (f : Nat) : ∀ n a, n ≤ f →
    (hexCharsAux f n).foldl (fun x c => 16 * x + hexCharVal c) a =
    a * 16 ^ (hexCharsAux f n).length + n := by
  induction f with
  | zero =>
    intro n a h
    interval_cases n
    simp [hexCharsAux]
  | succ f ih =>
    intro n a h
    match n with
    | 0 => simp [hexCharsAux]
    | m + 1 =>
      rw [show hexCharsAux (f + 1) (m + 1) =
            hexCharsAux f ((m + 1) / 16) ++ [Nat.digitChar ((m + 1) % 16)]
          from rfl]
      rw [List.foldl_append]
      have hq : (m + 1) / 16 ≤ f := by
        have h1 := Nat.div_lt_self (Nat.succ_pos m) (by norm_num : 1 < 16)
        omega
      rw [ih ((m + 1) / 16) a hq]
      simp only [List.foldl_cons, List.foldl_nil, List.length_append,
        List.length_singleton]
      rw [hexCharVal_digitChar _ (Nat.mod_lt _ (by norm_num))]
      have hqr : (m + 1) / 16 * 16 + (m + 1) % 16 = m + 1 := by omega
      calc 16 * (a * 16 ^ (hexCharsAux f ((m + 1) / 16)).length +
              (m + 1) / 16) + (m + 1) % 16
          = a * (16 ^ (hexCharsAux f ((m + 1) / 16)).length * 16) +
              ((m + 1) / 16 * 16 + (m + 1) % 16) := by ring
        _ = a * 16 ^ ((hexCharsAux f ((m + 1) / 16)).length + 1) +
              (m + 1) := by rw [pow_succ, hqr]

theorem hexVal_hexChars (n : Nat) : hexVal (hexChars n) = n := by
  have h := hexCharsAux_foldl n n 0 le_rfl
  simpa [hexVal, hexChars] using h

theorem hexChars_inj (n m : Nat) (h : hexChars n = hexChars m) : n = m := by
  have h1 := hexVal_hexChars n
  rw [h, hexVal_hexChars] at h1
  exact h1.symm

theorem toHexStr_inj (n m : Nat) (h : toHexStr n = toHexStr m) : n = m := by
  unfold toHexStr at h
  by_cases hn : n = 0 <;> by_cases hm : m = 0
  · rw [hn, hm]
  · rw [if_pos hn, if_neg hm] at h
    have hd : (['0'] : List Char) = hexChars m := congrArg String.data h
    have hv := hexVal_hexChars m
    rw [← hd] at hv
    have h0 : hexVal ['0'] = 0 := by decide
    rw [h0] at hv
    exact absurd hv.symm hm
  · rw [if_neg hn, if_pos hm] at h
    have hd : hexChars n = (['0'] : List Char) := congrArg String.data h
    have hv := hexVal_hexChars n
    rw [hd] at hv
    have h0 : hexVal ['0'] = 0 := by decide
    rw [h0] at hv
    exact absurd hv.symm hn
  · rw [if_neg hn, if_neg hm] at h
    exact hexChars_inj n m (congrArg String.data h)

theorem clientIdOf_inj (r1 r2 : Nat) (h : clientIdOf r1 = clientIdOf r2) :
    r1 % 65535 = r2 % 65535 := by
  unfold clientIdOf at h
  have hd := congrArg String.data h
  rw [String.data_append, String.data_append] at hd
  have hx := List.append_cancel_left hd
  exact toHexStr_inj _ _ (String.ext hx)

theorem reconnectLoop_connectIds (atts : List (Nat × Bool))
    (es : List Event) (h : reconnectLoop atts = some es) :
    ∃ pre r rest, atts = pre ++ (r, true) :: rest ∧
      (∀ a ∈ pre, a.2 = false) ∧
      connectIds es = (pre ++ [(r, true)]).map (fun a => clientIdOf a.1) := by
  induction atts generalizing es with
  | nil => exact absurd h (by simp [reconnectLoop_nil])
  | cons a rest ih =>
    obtain ⟨r, ok⟩ := a
    cases ok with
    | true =>
      rw [reconnectLoop_cons_true, Option.some_inj] at h
      subst h
      exact ⟨[], r, rest, rfl, by simp, by simp [connectIds]⟩
    | false =>
      rw [reconnectLoop_cons_false] at h
      cases hrec : reconnectLoop rest with
      | none => rw [hrec] at h; cases h
      | some es' =>
        rw [hrec, Option.some_inj] at h
        subst h
        obtain ⟨pre, r', rest', hatts, hpre, hids⟩ := ih es' hrec
        refine ⟨(r, false) :: pre, r', rest', by rw [hatts]; rfl, ?_, ?_⟩
        · intro a ha
          rcases List.mem_cons.mp ha with rfl | ha2
          · rfl
          · exact hpre a ha2
        · simp [connectIds, hids]

/-- C2: in every terminating execution of `captureAndSend` in which
`esp_camera_fb_get` yields a frame, `esp_camera_fb_return` is executed
exactly once before the function returns — on the publish-success path
and on the publish-failure path alike (the statement is universally
quantified over the publish outcome `inp.pub`). -/
theorem captureAndSend_release_once (inp : CycleInput) (tr : List Event)
    (hacq : inp.acq = true) (h : captureAndSend inp = some tr) :
    tr.countP isFbReturn = 1 := by
  rcases captureAndSend_eq inp tr h with ⟨hf, _⟩ | ⟨_, recEs, _, hconn, htr⟩
  · rw [hacq] at hf; cases hf
  · subst htr
    have hzero : recEs.countP isFbReturn = 0 := by
      rw [List.countP_eq_zero]
      intro e he
      simp [(isConnEvent_spec e (hconn e he)).2.2]
    simp [List.countP_append, List.countP_cons, hzero, isFbReturn]

/-- C2 witness: with a frame acquired, connection up and publish
failing, the trace releases the frame buffer exactly once. -/
theorem captureAndSend_release_once_witness :
    (⟨true, true, [], false⟩ : CycleInput).acq = true ∧
    captureAndSend ⟨true, true, [], false⟩ =
      some [Event.ledSet true, Event.fbGet true,
            Event.publish mqtt_topic false, Event.fbReturn,
            Event.ledSet false] ∧
    [Event.ledSet true, Event.fbGet true, Event.publish mqtt_topic false,
     Event.fbReturn, Event.ledSet false].countP isFbReturn = 1 :=
  ⟨rfl, rfl, captureAndSend_release_once ⟨true, true, [], false⟩ _ rfl rfl⟩

/-- C3: in every terminating execution of `captureAndSend`, each
`mqtt.publish` call happens while the threaded `mqtt.connected()` state
is true: either it was true at the check, or `reconnectMQTT` ran and its
final connect attempt succeeded. -/
theorem captureAndSend_publish_connected (inp : CycleInput)
    (tr : List Event) (h : captureAndSend inp = some tr) :
    publishOnlyConnectedB inp.conn tr = true := by
  rcases captureAndSend_eq inp tr h with ⟨_, htr⟩ | ⟨_, recEs, hrec, hconn, htr⟩
  · subst htr; rfl
  · subst htr
    cases hc : inp.conn with
    | true =>
      rw [hc] at hrec
      have hnil : recEs = [] := (Option.some_inj.mp hrec).symm
      subst hnil
      rfl
    | false =>
      rw [hc] at hrec
      have hrec' : reconnectLoop inp.atts = some recEs := hrec
      rw [List.append_assoc, publishOnlyConnectedB_append,
          publishOnlyConnectedB_append]
      have hnp : ∀ e ∈ recEs, isPublish e = false :=
        fun e he => (isConnEvent_spec e (hconn e he)).1
      rw [publishOnlyConnectedB_of_no_publish recEs hnp,
          reconnectLoop_connFold inp.atts recEs hrec']
      rfl

/-- C3 witness: disconnected at the check, one failed connect then a
successful one, then the publish — the threaded connection state is true
at the publish. -/
theorem captureAndSend_publish_connected_witness :
    captureAndSend ⟨true, false, [(2, false), (7, true)], true⟩ =
      some [Event.ledSet true, Event.fbGet true,
            Event.connectAttempt (clientIdOf 2) false, Event.delayMs 5000,
            Event.connectAttempt (clientIdOf 7) true,
            Event.publish mqtt_topic true, Event.fbReturn,
            Event.ledSet false] ∧
    publishOnlyConnectedB false
      [Event.ledSet true, Event.fbGet true,
       Event.connectAttempt (clientIdOf 2) false, Event.delayMs 5000,
       Event.connectAttempt (clientIdOf 7) true,
       Event.publish mqtt_topic true, Event.fbReturn,
       Event.ledSet false] = true :=
  ⟨rfl, captureAndSend_publish_connected
    ⟨true, false, [(2, false), (7, true)], true⟩ _ rfl⟩

/-- C4: every terminating execution of `reconnectMQTT` returns with the
connection state true, and in its trace every failed connect attempt is
immediately followed by a fixed `delay(5000)` — no zero-delay retry
iteration after a failure. -/
theorem reconnect_returns_connected_with_delay (c : Bool)
    (atts : List (Nat × Bool)) (es : List Event)
    (h : reconnectMQTT c atts = some es) :
    connFold c es = true ∧ failedFollowedByDelayB es = true := by
  cases c with
  | true =>
    have hnil : es = [] := (Option.some_inj.mp h).symm
    subst hnil
    exact ⟨rfl, rfl⟩
  | false =>
    have h' : reconnectLoop atts = some es := h
    exact ⟨reconnectLoop_connFold atts es h' false,
           reconnectLoop_delay atts es h'⟩

/-- C4 witness: entering disconnected with two failed attempts before a
success, the function returns connected and each failure is followed by
the 5-second delay. -/
theorem reconnect_returns_connected_with_delay_witness :
    reconnectMQTT false [(2, false), (9, false), (5, true)] =
      some [Event.connectAttempt (clientIdOf 2) false, Event.delayMs 5000,
            Event.connectAttempt (clientIdOf 9) false, Event.delayMs 5000,
            Event.connectAttempt (clientIdOf 5) true] ∧
    connFold false
      [Event.connectAttempt (clientIdOf 2) false, Event.delayMs 5000,
       Event.connectAttempt (clientIdOf 9) false, Event.delayMs 5000,
       Event.connectAttempt (clientIdOf 5) true] = true ∧
    failedFollowedByDelayB
      [Event.connectAttempt (clientIdOf 2) false, Event.delayMs 5000,
       Event.connectAttempt (clientIdOf 9) false, Event.delayMs 5000,
       Event.connectAttempt (clientIdOf 5) true] = true :=
  ⟨rfl,
   (reconnect_returns_connected_with_delay false
     [(2, false), (9, false), (5, true)] _ rfl).1,
   (reconnect_returns_connected_with_delay false
     [(2, false), (9, false), (5, true)] _ rfl).2⟩

/-- C7: when `esp_camera_fb_get` yields no frame, the cycle's trace has
no publish, no buffer release, exactly one capture attempt (no retry),
the status LED is off at return from any prior state, and the last
action before returning is clearing the status LED. -/
theorem captureAndSend_acquire_fail (inp : CycleInput) (tr : List Event)
    (hacq : inp.acq = false) (h : captureAndSend inp = some tr) :
    tr.countP isPublish = 0 ∧ tr.countP isFbReturn = 0 ∧
    tr.countP isFbGet = 1 ∧ (∀ c, ledAfter c tr = false) ∧
    tr.getLast? = some (Event.ledSet false) := by
  rcases captureAndSend_eq inp tr h with ⟨_, htr⟩ | ⟨ht, _⟩
  · subst htr
    exact ⟨rfl, rfl, rfl, fun c => rfl, rfl⟩
  · rw [hacq] at ht; cases ht

/-- C7 witness: concrete failed acquisition. -/
theorem captureAndSend_acquire_fail_witness :
    captureAndSend ⟨false, true, [], true⟩ =
      some [Event.ledSet true, Event.fbGet false, Event.ledSet false] ∧
    ([Event.ledSet true, Event.fbGet false,
      Event.ledSet false].countP isPublish = 0 ∧
     [Event.ledSet true, Event.fbGet false,
      Event.ledSet false].countP isFbReturn = 0 ∧
     [Event.ledSet true, Event.fbGet false,
      Event.ledSet false].countP isFbGet = 1 ∧
     (∀ c, ledAfter c [Event.ledSet true, Event.fbGet false,
        Event.ledSet false] = false) ∧
     [Event.ledSet true, Event.fbGet false,
      Event.ledSet false].getLast? = some (Event.ledSet false)) :=
  ⟨rfl, captureAndSend_acquire_fail ⟨false, true, [], true⟩ _ rfl rfl⟩

/-- C1: in every terminating `loop()` iteration, a capture-publish cycle
runs iff `currentMillis - lastCapture >= captureInterval` (32-bit
unsigned) held at the tick; when it fires, `lastCapture` is set to
`currentMillis` and the `setLast` write precedes every event of the
cycle in the trace (set before the cycle runs, not after it completes). -/
theorem loop_capture_iff_interval (last : Nat) (inp : LoopInput)
    (last' : Nat) (tr : List Event)
    (h : loopIter last inp = some (last', tr)) :
    (cycleInvoked tr = true ↔ captureInterval ≤ sub32 inp.now last) ∧
    (captureInterval ≤ sub32 inp.now last →
      last' = inp.now ∧
      ∃ pre cyc, captureAndSend inp.cycle = some cyc ∧
        tr = pre ++ Event.setLast inp.now :: (cyc ++ [Event.delayMs 100]) ∧
        ∀ e ∈ pre, isFbGet e = false ∧ isPublish e = false) := by
  obtain ⟨topRec, hconn, _, hcases⟩ := loopIter_eq last inp last' tr h
  rcases hcases with ⟨hfire, hl, cyc, hcyc, htr⟩ | ⟨hnf, hl, htr⟩
  · have hcg := captureAndSend_has_fbGet inp.cycle cyc hcyc
    constructor
    · exact ⟨fun _ => hfire, fun _ => by
        subst htr
        simp [cycleInvoked, List.any_append, List.any_cons, isFbGet, hcg]⟩
    · intro _
      refine ⟨hl, topRec ++ [Event.mqttLoop, Event.intervalCheck true],
        cyc, hcyc, ?_, ?_⟩
      · subst htr
        simp [List.append_assoc]
      · intro e he
        rcases List.mem_append.mp he with htop | hmem
        · have hs := isConnEvent_spec e (hconn e htop)
          exact ⟨hs.2.1, hs.1⟩
        · rcases hmem with _ | ⟨_, _ | ⟨_, hx⟩⟩
          · exact ⟨rfl, rfl⟩
          · exact ⟨rfl, rfl⟩
          · cases hx
  · have hfalse : cycleInvoked tr = false := by
      subst htr
      simp only [cycleInvoked, List.any_append, List.any_cons,
        List.any_nil, Bool.or_false]
      have htop : topRec.any isFbGet = false := by
        rw [List.any_eq_false]
        intro e he
        simp [(isConnEvent_spec e (hconn e he)).2.1]
      simp [htop, isFbGet]
    constructor
    · constructor
      · intro hcy
        rw [hfalse] at hcy
        cases hcy
      · intro hf
        exact absurd hf hnf
    · intro hf
      exact absurd hf hnf

/-- C1 witness: at `lastCapture = 0`, `millis() = 300000`, the interval
check fires, the cycle runs after the `setLast` write. -/
theorem loop_capture_iff_interval_witness :
    loopIter 0 ⟨true, [], 300000, ⟨true, true, [], true⟩⟩ =
      some (300000,
        [Event.mqttLoop, Event.intervalCheck true, Event.setLast 300000,
         Event.ledSet true, Event.fbGet true,
         Event.publish mqtt_topic true, Event.fbReturn,
         Event.ledSet false, Event.delayMs 100]) ∧
    ((cycleInvoked
        [Event.mqttLoop, Event.intervalCheck true, Event.setLast 300000,
         Event.ledSet true, Event.fbGet true,
         Event.publish mqtt_topic true, Event.fbReturn,
         Event.ledSet false, Event.delayMs 100] = true ↔
      captureInterval ≤ sub32 300000 0) ∧
     (captureInterval ≤ sub32 300000 0 →
      300000 = (⟨true, [], 300000, ⟨true, true, [], true⟩⟩ : LoopInput).now ∧
      ∃ pre cyc,
        captureAndSend (⟨true, [], 300000,
          ⟨true, true, [], true⟩⟩ : LoopInput).cycle = some cyc ∧
        [Event.mqttLoop, Event.intervalCheck true, Event.setLast 300000,
         Event.ledSet true, Event.fbGet true,
         Event.publish mqtt_topic true, Event.fbReturn,
         Event.ledSet false, Event.delayMs 100] =
          pre ++ Event.setLast 300000 :: (cyc ++ [Event.delayMs 100]) ∧
        ∀ e ∈ pre, isFbGet e = false ∧ isPublish e = false)) :=
  ⟨by decide,
   loop_capture_iff_interval 0 ⟨true, [], 300000, ⟨true, true, [], true⟩⟩
     300000 _ (by decide)⟩

/-- C8: within one terminating `loop()` iteration the trace is exactly:
connection-maintenance events, then `mqtt.loop()`, then the interval
check, then (only if it fired) the `lastCapture` write and the capture
attempt, then the idle delay — the claimed strict order. -/
theorem loop_iteration_order (last : Nat) (inp : LoopInput) (last' : Nat)
    (tr : List Event) (h : loopIter last inp = some (last', tr)) :
    ∃ topRec rest,
      tr = topRec ++ Event.mqttLoop ::
           Event.intervalCheck
             (decide (captureInterval ≤ sub32 inp.now last)) :: rest ∧
      (∀ e ∈ topRec, isConnEvent e = true) ∧
      (captureInterval ≤ sub32 inp.now last →
        ∃ cyc, captureAndSend inp.cycle = some cyc ∧
          rest = Event.setLast inp.now :: (cyc ++ [Event.delayMs 100])) ∧
      (¬ captureInterval ≤ sub32 inp.now last →
        rest = [Event.delayMs 100]) := by
  obtain ⟨topRec, hconn, _, hcases⟩ := loopIter_eq last inp last' tr h
  rcases hcases with ⟨hfire, _, cyc, hcyc, htr⟩ | ⟨hnf, _, htr⟩
  · refine ⟨topRec, Event.setLast inp.now :: (cyc ++ [Event.delayMs 100]),
      ?_, hconn, fun _ => ⟨cyc, hcyc, rfl⟩, fun hnf => absurd hfire hnf⟩
    rw [decide_eq_true hfire]
    exact htr
  · refine ⟨topRec, [Event.delayMs 100], ?_, hconn,
      fun hf => absurd hf hnf, fun _ => rfl⟩
    rw [decide_eq_false hnf]
    exact htr

/-- C8 witness: a quiescent iteration (connected, interval not elapsed)
still shows the order: `mqtt.loop()`, interval check, idle delay. -/
theorem loop_iteration_order_witness :
    loopIter 0 ⟨true, [], 100, ⟨true, true, [], true⟩⟩ =
      some (0, [Event.mqttLoop, Event.intervalCheck false,
                Event.delayMs 100]) ∧
    ∃ topRec rest,
      [Event.mqttLoop, Event.intervalCheck false, Event.delayMs 100] =
        topRec ++ Event.mqttLoop ::
        Event.intervalCheck (decide (captureInterval ≤ sub32 100 0)) ::
        rest ∧
      (∀ e ∈ topRec, isConnEvent e = true) ∧
      (captureInterval ≤ sub32 100 0 →
        ∃ cyc, captureAndSend ⟨true, true, [], true⟩ = some cyc ∧
          rest = Event.setLast 100 :: (cyc ++ [Event.delayMs 100])) ∧
      (¬ captureInterval ≤ sub32 100 0 → rest = [Event.delayMs 100]) :=
  ⟨by decide,
   loop_iteration_order 0 ⟨true, [], 100, ⟨true, true, [], true⟩⟩ 0 _
     (by decide)⟩

/-- C5 counterexample: with `lastCapture = 0` and `captureInterval =
300000`, a tick at `t = 0` does NOT trigger a capture-publish cycle —
`0 - 0 = 0 < 300000` — contradicting the claimed trigger at `t = 0`. -/
theorem first_tick_counterexample : ¬ (tick 0 0).1 = true := by decide

/-- C5 amended: with `captureInterval = 300000` and `lastCapture = 0`, a
tick at `t = 0` triggers no cycle and leaves `lastCapture = 0`; a tick
at `t = 299999` triggers no cycle; a tick at `t = 300000` triggers a
cycle and sets `lastCapture = 300000`. -/
theorem first_interval_scenario :
    tick 0 0 = (false, 0) ∧ tick 0 299999 = (false, 0) ∧
    tick 0 300000 = (true, 300000) := by decide

/-- C6 counterexample: a reachable two-tick sequence on which an
assignment to `lastCapture` stores a strictly smaller value: a tick at
`millis() = 2^32 - 1` fires and stores `4294967295`; after the counter
wraps, a tick at `millis() = 299999` has modular elapsed time exactly
`300000`, fires, and stores `299999 < 4294967295`. -/
theorem lastCapture_decrease_counterexample :
    tick 0 4294967295 = (true, 4294967295) ∧
    tick 4294967295 299999 = (true, 299999) ∧
    299999 < 4294967295 := by decide

/-- C6 amended: as long as the millisecond counter has not wrapped past
the stored value (`lastCapture ≤ now`), each assignment performed by the
scheduler stores a value greater than or equal to the previous one; the
monotonicity claim fails only across 32-bit wraparound of `millis()`. -/
theorem lastCapture_monotone_no_wrap (last now : Nat) (h : last ≤ now) :
    last ≤ (tick last now).2 := by
  unfold tick
  split
  · exact h
  · exact le_rfl

/-- C6 amended witness. -/
theorem lastCapture_monotone_no_wrap_witness :
    (0 : Nat) ≤ 4294967295 ∧ (0 : Nat) ≤ (tick 0 4294967295).2 :=
  ⟨by decide, lastCapture_monotone_no_wrap 0 4294967295 (by decide)⟩

/-- C9: in every terminating `reconnectMQTT` run entered disconnected,
the client identities used by the connect attempts are, in order,
exactly `clientIdOf` of each attempt's own fresh random draw (the failed
prefix plus the succeeding attempt); and distinct draws (mod `0xffff`)
yield distinct identities, so no previous attempt's identifier is
reused. -/
theorem reconnect_fresh_client_identity (atts : List (Nat × Bool))
    (es : List Event) (h : reconnectMQTT false atts = some es) :
    (∃ pre r rest, atts = pre ++ (r, true) :: rest ∧
      (∀ a ∈ pre, a.2 = false) ∧
      connectIds es = (pre ++ [(r, true)]).map (fun a => clientIdOf a.1)) ∧
    (∀ r1 r2 : Nat, r1 % 65535 ≠ r2 % 65535 →
      clientIdOf r1 ≠ clientIdOf r2) := by
  refine ⟨reconnectLoop_connectIds atts es h,
    fun r1 r2 hne hcontra => hne (clientIdOf_inj r1 r2 hcontra)⟩

/-- C9 witness: one failed then one successful attempt use the first and
second random draws respectively. -/
theorem reconnect_fresh_client_identity_witness :
    reconnectMQTT false [(3, false), (7, true)] =
      some [Event.connectAttempt (clientIdOf 3) false, Event.delayMs 5000,
            Event.connectAttempt (clientIdOf 7) true] ∧
    ((∃ pre r rest,
        [(3, false), (7, true)] = pre ++ (r, true) :: rest ∧
        (∀ a ∈ pre, a.2 = false) ∧
        connectIds
          [Event.connectAttempt (clientIdOf 3) false, Event.delayMs 5000,
           Event.connectAttempt (clientIdOf 7) true] =
          (pre ++ [(r, true)]).map (fun a => clientIdOf a.1)) ∧
     (∀ r1 r2 : Nat, r1 % 65535 ≠ r2 % 65535 →
        clientIdOf r1 ≠ clientIdOf r2)) :=
  ⟨rfl, reconnect_fresh_client_identity [(3, false), (7, true)] _ rfl⟩

/-- C10: the scheduler's elapsed-time test is 32-bit unsigned modular
arithmetic: the tick fires exactly on `captureInterval ≤ sub32 now
last`, and `sub32 now last` equals the mathematical modular distance
`(now - last) mod 2^32` over the integers — including across wraparound
of the millisecond counter. -/
theorem interval_check_modular (now last : Nat) :
    (tick last now).1 = decide (captureInterval ≤ sub32 now last) ∧
    (sub32 now last : Int) =
      ((now : Int) - (last : Int)) % (4294967296 : Int) := by
  constructor
  · unfold tick
    split
    · exact (decide_eq_true ‹_›).symm
    · exact (decide_eq_false ‹_›).symm
  · unfold sub32 UINT32_MOD
    have hlt : last % 4294967296 < 4294967296 :=
      Nat.mod_lt last (by norm_num)
    have hle : last % 4294967296 ≤ now + 4294967296 := by omega
    push_cast [Nat.cast_sub hle]
    omega
